import Mathlib

/-!
# Verification of the flit-data-platform ingestion and experiment-assignment code

Shallow embedding of the parts of `whitehackr/flit-data-platform` that the
specification's claims are about:

* `scripts/experiment_assignments.py` — deterministic hash-based variant
  assignment (`assign_variant_deterministic`).
* `scripts/bnpl/historical_ingestion.py` — the resumable progress tracker
  (`IngestionProgressTracker`) and the batch ingestion driver
  (`BNPLHistoricalIngester`).
* `scripts/bnpl/api_client.py` — input validation of `get_bnpl_data`.

Modelling conventions:

* Calendar dates are modelled as natural numbers (day ordinals).  The Python
  code stores dates as ISO-8601 strings and compares them with `date`
  ordering; ISO strings are order-isomorphic to day ordinals, so `Nat` with
  its usual order is a faithful carrier for membership/ordering facts.
* The MD5 digest comes from Python's `hashlib`, which is outside this
  repository; the embedding abstracts it as a parameter
  `md5 : String → Nat` (the digest read as an integer, exactly as
  `int(hexdigest, 16)` does).  Every theorem below holds for all digests.
* Python floats in the allocation walk are modelled as rationals `ℚ`.
* External effects (HTTP requests, BigQuery jobs, the progress file) are
  modelled explicitly: the progress file by a file-state datatype that keeps
  caught and uncaught exception paths apart, remote calls as an oracle
  parameter together with a count of calls issued.
-/

namespace Flit

/-! ## `scripts/experiment_assignments.py` -/

/-- `probability = (hash_value % 1000000) / 1000000` where
`hash_value = int(md5(f"{user_id}_{experiment_name}").hexdigest(), 16)`. -/
def hashProbability (md5 : String → Nat) (user_id : Int) (experiment_name : String) : ℚ :=
  ((md5 (toString user_id ++ "_" ++ experiment_name) % 1000000 : ℕ) : ℚ) / 1000000

/-- The `for i, (variant, alloc) in enumerate(zip(variants, allocation))` loop of
`assign_variant_deterministic`: accumulate `cumulative_prob += alloc` and return
the first variant with `probability <= cumulative_prob`. -/
def assignLoop (probability : ℚ) : ℚ → List (String × ℚ) → Option String
  | _, [] => none
  | cumulative_prob, (variant, alloc) :: rest =>
    let c := cumulative_prob + alloc
    if probability ≤ c then some variant else assignLoop probability c rest

/-- `assign_variant_deterministic(user_id, experiment_name, variants, allocation)`
(`scripts/experiment_assignments.py`, lines 80–103).  The `return variants[0]`
fallback is reached only when the loop finds no variant; `List.headD` models the
Python indexing (`variants[0]` would raise only on an empty list, a case no
caller and no claim exercises with the fallback). -/
def assign_variant_deterministic (md5 : String → Nat) (user_id : Int)
    (experiment_name : String) (variants : List String) (allocation : List ℚ) : String :=
  let probability := hashProbability md5 user_id experiment_name
  match assignLoop probability 0 (variants.zip allocation) with
  | some variant => variant
  | none => variants.headD ""

/-- The running cumulative sums of an allocation vector, starting from a given
accumulator: `cumulativeShares 0 [a, b, c] = [a, a+b, a+b+c]`. -/
def cumulativeShares : ℚ → List ℚ → List ℚ
  | _, [] => []
  | c, alloc :: rest => (c + alloc) :: cumulativeShares (c + alloc) rest

/-- The algorithm as the specification words it: hash the concatenation of the
entity id and experiment name, reduce the digest modulo 1,000,000 to a value in
`[0,1)`, then walk the cumulative allocation vector and return the first variant
whose cumulative share is greater than or equal to that value (first variant as
fallback).  Used to compare the spec's description against the code. -/
def specAssignVariant (md5 : String → Nat) (user_id : Int)
    (experiment_name : String) (variants : List String) (allocation : List ℚ) : String :=
  let value := hashProbability md5 user_id experiment_name
  match (variants.zip (cumulativeShares 0 allocation)).find? (fun vc => value ≤ vc.2) with
  | some vc => vc.1
  | none => variants.headD ""

/-- A concrete stand-in digest used by closed witness statements. -/
def md5Ex : String → Nat := fun s => 37 * s.length + 123456

/-! ## `scripts/bnpl/historical_ingestion.py` — `IngestionProgressTracker`

The persisted progress dictionary:
`{"completed_dates": [...], "failed_dates": [...], "total_records_ingested": n,
  "last_updated": ..., "ingestion_start_time": ...}`.
The two timestamps are wall-clock ISO strings (or `null`), modelled as
`Option Nat`; `save_progress`'s wall-clock stamping is outside the model. -/

structure Progress where
  completed_dates : List Nat
  failed_dates : List Nat
  total_records_ingested : Nat
  last_updated : Option Nat
  ingestion_start_time : Option Nat
  deriving DecidableEq, Repr

/-- The default dictionary `_load_progress` returns when no file is usable. -/
def freshProgress : Progress :=
  { completed_dates := []
    failed_dates := []
    total_records_ingested := 0
    last_updated := none
    ingestion_start_time := none }

/-- The state of the progress file as `_load_progress` can encounter it.  The
`except` clause at line 59 catches exactly `(json.JSONDecodeError, IOError)`;
an exception outside those two classes propagates out of the constructor. -/
inductive ProgressFile where
  /-- `os.path.exists` is false: the file does not exist. -/
  | absent
  /-- Opening or decoding raises `IOError` or `json.JSONDecodeError`, both
  caught and logged. -/
  | caughtError
  /-- Reading raises outside the caught classes — e.g. `UnicodeDecodeError`
  from a non-UTF-8 file, a `ValueError` that is neither a `JSONDecodeError`
  nor an `IOError` — and escapes `__init__`. -/
  | uncaughtError
  /-- The file holds a valid progress dictionary. -/
  | valid (p : Progress)
  deriving DecidableEq, Repr

/-- `IngestionProgressTracker._load_progress` (lines 53–68): return the stored
dictionary when the file is readable, fall back to the fresh state when the
file is absent or raises one of the two caught exception classes, and let any
other exception propagate (modelled as `Except.error` naming the exception). -/
def load_progress : ProgressFile → Except String Progress
  | .absent => Except.ok freshProgress
  | .caughtError => Except.ok freshProgress
  | .uncaughtError => Except.error "UnicodeDecodeError"
  | .valid p => Except.ok p

/-- `IngestionProgressTracker.is_date_completed` (lines 99–101):
`target_date.isoformat() in self.progress["completed_dates"]`. -/
def is_date_completed (p : Progress) (target_date : Nat) : Bool :=
  p.completed_dates.contains target_date

/-- `IngestionProgressTracker.mark_date_completed` (lines 79–90): append to
`completed_dates` unless present, remove the first occurrence from
`failed_dates` if present, and unconditionally add `records_count` to
`total_records_ingested`. -/
def mark_date_completed (p : Progress) (target_date : Nat) (records_count : Nat) : Progress :=
  let completed :=
    if target_date ∈ p.completed_dates then p.completed_dates
    else p.completed_dates ++ [target_date]
  let failed :=
    if target_date ∈ p.failed_dates then p.failed_dates.erase target_date
    else p.failed_dates
  { p with
      completed_dates := completed
      failed_dates := failed
      total_records_ingested := p.total_records_ingested + records_count }

/-- `IngestionProgressTracker.mark_date_failed` (lines 92–97). -/
def mark_date_failed (p : Progress) (target_date : Nat) : Progress :=
  if target_date ∈ p.failed_dates then p
  else { p with failed_dates := p.failed_dates ++ [target_date] }

/-- The `while current_date <= end_date` loop of `get_remaining_dates`,
driven by the remaining number of iterations. -/
def remainingGo (p : Progress) : Nat → Nat → List Nat
  | 0, _ => []
  | fuel + 1, current_date =>
    if is_date_completed p current_date then remainingGo p fuel (current_date + 1)
    else current_date :: remainingGo p fuel (current_date + 1)

/-- `IngestionProgressTracker.get_remaining_dates` (lines 103–111): every date
of the closed range `[start_date, end_date]` not marked completed, in the order
the loop visits them. -/
def get_remaining_dates (p : Progress) (start_date end_date : Nat) : List Nat :=
  remainingGo p (end_date + 1 - start_date) start_date

/-- The batching loop of `get_remaining_batches` (lines 119–130): grow
`current_batch`; whenever it reaches `batch_days` elements or the current
date equals the last remaining date, emit `(batch_start, batch_end, dates)`
and start a new batch. -/
def chunkGo (batch_days : Nat) (lastDate : Nat) : List Nat → List Nat → List (Nat × Nat × List Nat)
  | _, [] => []
  | current_batch, date_item :: rest =>
    let cur := current_batch ++ [date_item]
    if cur.length = batch_days ∨ date_item = lastDate then
      (cur.headD 0, cur.getLastD 0, cur) :: chunkGo batch_days lastDate [] rest
    else
      chunkGo batch_days lastDate cur rest

/-- `IngestionProgressTracker.get_remaining_batches` (lines 113–132). -/
def get_remaining_batches (p : Progress) (start_date end_date batch_days : Nat) :
    List (Nat × Nat × List Nat) :=
  let remaining := get_remaining_dates p start_date end_date
  if remaining.isEmpty then []
  else chunkGo batch_days (remaining.getLastD 0) [] remaining

/-! ## `scripts/bnpl/historical_ingestion.py` — `BNPLHistoricalIngester`

`ingest_multi_day_batch` (lines 275–437) performs, in order: one API call for
the whole date range, an emptiness check, an early field validation of the
first record, the per-record transform, then one BigQuery load job followed by
verification queries.  Crucially, the local variable `successful_dates` is set
to the *whole* batch as soon as the API call and transform succeed (line 314,
"All dates successful if API call succeeds"), before the load job runs.  The
`except` handler marks as failed only dates *not* in `successful_dates`.
The possible outcomes are modelled by where the first exception (if any) is
raised. -/

inductive BatchOutcome where
  /-- `SimtomAPIError` raised by `api_client.get_bnpl_data`. -/
  | apiError
  /-- The API returned no records (`raise Exception("No records returned ...")`). -/
  | noRecords
  /-- The early required-field validation raised `ValueError`. -/
  | earlyValidationError
  /-- `transform_records` raised `ValueError`. -/
  | transformError
  /-- The BigQuery load job or its verification raised, *after*
  `successful_dates = target_dates` was assigned. -/
  | loadError
  /-- Everything succeeded; the API returned `records` transformed records. -/
  | success (records : Nat)
  deriving DecidableEq, Repr

/-- Marking every date of a batch failed, in order (the `except` handler's
`for target_date in target_dates` loop when `successful_dates` is empty). -/
def markDatesFailed (p : Progress) (dates : List Nat) : Progress :=
  dates.foldl mark_date_failed p

/-- Marking every date of a batch completed with
`records_per_date = total_records // len(successful_dates)` each
(lines 423–426). -/
def markDatesCompleted (p : Progress) (dates : List Nat) (records_per_date : Nat) : Progress :=
  dates.foldl (fun st d => mark_date_completed st d records_per_date) p

/-- The effect of `BNPLHistoricalIngester.ingest_multi_day_batch` on the
progress tracker, given where (if anywhere) the first exception was raised.
Returns the new progress and `some total_records` on success, `none` when the
call re-raises.  On `loadError` the handler's `target_date not in
successful_dates` test is false for every date, so no date is marked at all;
on the earlier failures `successful_dates` is still empty, so every date of
the batch is marked failed. -/
def ingest_multi_day_batch (p : Progress) (target_dates : List Nat) (oc : BatchOutcome) :
    Progress × Option Nat :=
  match oc with
  | .success records =>
    (markDatesCompleted p target_dates (records / target_dates.length), some records)
  | .loadError => (p, none)
  | _ => (markDatesFailed p target_dates, none)

/-- Every invocation of `ingest_multi_day_batch` issues exactly one API fetch
(the retries inside `requests.Session` are below this model's granularity). -/
def batchApiCalls (_ : BatchOutcome) : Nat := 1

/-- A BigQuery load job is only issued once the API call and transform have
succeeded. -/
def batchBqCalls : BatchOutcome → Nat
  | .loadError => 1
  | .success _ => 1
  | _ => 0

/-- Whether a batch outcome is a failure (any raised exception). -/
def BatchOutcome.isFailure : BatchOutcome → Bool
  | .success _ => false
  | _ => true

/-- The per-run counters accumulated by `_run_batch_ingestion`'s loop, plus
counts of the external calls issued. -/
structure RunStats where
  successful_batches : Nat
  failed_batches : Nat
  total_records : Nat
  apiCalls : Nat
  bqCalls : Nat
  deriving DecidableEq, Repr

/-- The `for i, (batch_start, batch_end, batch_dates) in enumerate(...)` loop of
`_run_batch_ingestion` (lines 481–503): each batch is ingested; on an exception
the error is logged, `failed_batches` is incremented and the loop *continues*
with the next batch. -/
def runBatchesGo (p : Progress) : List (List Nat × BatchOutcome) → Progress × RunStats
  | [] => (p, ⟨0, 0, 0, 0, 0⟩)
  | (batch_dates, oc) :: rest =>
    let step := ingest_multi_day_batch p batch_dates oc
    let next := runBatchesGo step.1 rest
    match step.2 with
    | some records =>
      (next.1,
       ⟨next.2.successful_batches + 1, next.2.failed_batches,
        next.2.total_records + records,
        next.2.apiCalls + batchApiCalls oc, next.2.bqCalls + batchBqCalls oc⟩)
    | none =>
      (next.1,
       ⟨next.2.successful_batches, next.2.failed_batches + 1,
        next.2.total_records,
        next.2.apiCalls + batchApiCalls oc, next.2.bqCalls + batchBqCalls oc⟩)

/-- The summary dictionary returned by `_run_batch_ingestion`, together with
the final progress state and the external-call counts of the run.  The
short-circuit return (lines 464–470) sets `total_records` to the tracker's
persisted total and carries the message `"All batches already completed"`. -/
structure IngestionSummary where
  status : String
  message : Option String
  total_records : Nat
  overall_progress : Nat
  successful_batches : Nat
  failed_batches : Nat
  apiCalls : Nat
  bqCalls : Nat
  final : Progress
  deriving DecidableEq, Repr

/-- `BNPLHistoricalIngester._run_batch_ingestion` (lines 455–518): compute the
remaining batches; if none remain, return the "nothing to do" summary without
touching the API or the warehouse; otherwise process every batch in order.
`oracle` supplies the outcome of each batch's external interactions. -/
def run_batch_ingestion (p : Progress) (start_date end_date batch_days : Nat)
    (oracle : List Nat → BatchOutcome) : IngestionSummary :=
  let remaining_batches := get_remaining_batches p start_date end_date batch_days
  if remaining_batches.isEmpty then
    { status := "completed"
      message := some "All batches already completed"
      total_records := p.total_records_ingested
      overall_progress := p.total_records_ingested
      successful_batches := 0
      failed_batches := 0
      apiCalls := 0
      bqCalls := 0
      final := p }
  else
    let r := runBatchesGo p (remaining_batches.map (fun b => (b.2.2, oracle b.2.2)))
    { status := if r.2.failed_batches = 0 then "completed" else "partial"
      message := none
      total_records := r.2.total_records
      overall_progress := r.1.total_records_ingested
      successful_batches := r.2.successful_batches
      failed_batches := r.2.failed_batches
      apiCalls := r.2.apiCalls
      bqCalls := r.2.bqCalls
      final := r.1 }

/-- `IngestionProgressTracker.start_ingestion` (lines 134–138): record the
wall-clock start time (`now`) unless one is already set. -/
def start_ingestion (p : Progress) (now : Nat) : Progress :=
  match p.ingestion_start_time with
  | some _ => p
  | none => { p with ingestion_start_time := some now }

/-- `BNPLHistoricalIngester.setup_bigquery_table` (lines 158–173) always issues
exactly one warehouse request, `bq_client.get_table`; a missing table's
`GoogleCloudError` is caught, so the call never raises and changes no state. -/
def setupBigqueryTableCalls : Nat := 1

/-- `BNPLHistoricalIngester.run_historical_ingestion` (lines 439–453) on the
batch path (`batch_days > 1`, the configuration `main` uses): mark the
ingestion start, call `setup_bigquery_table` — one warehouse request, issued
*before* any batch selection — then run `_run_batch_ingestion`.  The summary's
warehouse counter includes the setup request. -/
def run_historical_ingestion (p : Progress) (now : Nat)
    (start_date end_date batch_days : Nat) (oracle : List Nat → BatchOutcome) :
    IngestionSummary :=
  let tracked := start_ingestion p now
  let summary := run_batch_ingestion tracked start_date end_date batch_days oracle
  { summary with bqCalls := summary.bqCalls + setupBigqueryTableCalls }

/-! ## `scripts/bnpl/api_client.py` — `BNPLAPIClient` input validation -/

/-- A calendar date as `datetime.date` sees it; comparison is lexicographic on
(year, month, day). -/
structure PDate where
  year : Nat
  month : Nat
  day : Nat
  deriving DecidableEq, Repr

/-- `datetime.date` ordering: lexicographic on (year, month, day). -/
def pdate_before (a b : PDate) : Prop :=
  a.year < b.year ∨ (a.year = b.year ∧
    (a.month < b.month ∨ (a.month = b.month ∧ a.day < b.day)))

instance (a b : PDate) : Decidable (pdate_before a b) := by
  unfold pdate_before; infer_instance

/-- `BNPLAPIClient._validate_date_range` (lines 89–112), after successful
string parsing (the claims only concern well-formed dates): raise when
`end < start`, then when `start.year < 2020 or end.year > today.year + 1`.
`today_year` stands for `date.today().year`. -/
def validate_date_range (today_year : Nat) (start_date end_date : PDate) :
    Except String Unit :=
  if pdate_before end_date start_date then
    Except.error "end_date cannot be before start_date"
  else if start_date.year < 2020 ∨ today_year + 1 < end_date.year then
    Except.error "Date range appears unrealistic"
  else
    Except.ok ()

/-- `BNPLAPIClient.get_bnpl_data` (lines 114–217) up to the point where the
HTTP POST is issued: validate the date range, then check
`base_daily_volume <= 0 or base_daily_volume > 50000`, and only then perform
the (rate-limited, internally retried) `session.post`, modelled by the
`http` oracle.  The second component counts HTTP requests issued. -/
def get_bnpl_data (today_year : Nat) (start_date end_date : PDate)
    (base_daily_volume : Int)
    (http : PDate → PDate → Int → Except String (List Nat)) :
    Except String (List Nat) × Nat :=
  match validate_date_range today_year start_date end_date with
  | Except.error msg => (Except.error msg, 0)
  | Except.ok _ =>
    if base_daily_volume ≤ 0 ∨ 50000 < base_daily_volume then
      (Except.error "base_daily_volume must be between 1 and 50,000", 0)
    else
      (http start_date end_date base_daily_volume, 1)

/-! ## Concrete states used by witness and counterexample statements -/

/-- A progress state with date 1 completed: remaining dates of `[0,2]` are
`[0, 2]`. -/
def pEx : Progress :=
  { completed_dates := [1]
    failed_dates := []
    total_records_ingested := 0
    last_updated := none
    ingestion_start_time := none }

/-- A progress state in which date 5 is already completed. -/
def pDone : Progress :=
  { completed_dates := [5]
    failed_dates := []
    total_records_ingested := 0
    last_updated := none
    ingestion_start_time := none }

/-- A progress state in which every date of `[0,2]` is completed. -/
def pAllDone : Progress :=
  { completed_dates := [0, 1, 2]
    failed_dates := []
    total_records_ingested := 42
    last_updated := none
    ingestion_start_time := none }

/-! ## Helper lemmas -/

/-- The assignment loop is the first-match search over the cumulative shares. -/
theorem assignLoop_eq_find (probability : ℚ) :
    ∀ (variants : List String) (allocation : List ℚ) (c : ℚ),
      assignLoop probability c (variants.zip allocation) =
        ((variants.zip (cumulativeShares c allocation)).find?
          (fun vc => probability ≤ vc.2)).map Prod.fst := by
  intro variants
  induction variants with
  | nil => intro allocation c; simp [assignLoop]
  | cons v vs ih =>
    intro allocation c
    cases allocation with
    | nil => simp [assignLoop, cumulativeShares]
    | cons a as =>
      simp only [List.zip_cons_cons, assignLoop, cumulativeShares, List.find?]
      by_cases h : probability ≤ c + a
      · simp [h]
      · simp [h]
        exact ih as (c + a)

/-- A variant returned by the loop comes from the zipped list. -/
theorem assignLoop_some (probability : ℚ) :
    ∀ (l : List (String × ℚ)) (c : ℚ) (v : String),
      assignLoop probability c l = some v → ∃ a, (v, a) ∈ l := by
  intro l
  induction l with
  | nil => intro c v h; simp [assignLoop] at h
  | cons p rest ih =>
    intro c v h
    rw [assignLoop] at h
    by_cases hc : probability ≤ c + p.2
    · simp [hc] at h
      exact ⟨p.2, by simp [← h]⟩
    · simp [hc] at h
      obtain ⟨a, ha⟩ := ih (c + p.2) v h
      exact ⟨a, List.mem_cons_of_mem _ ha⟩

/-! ## Claim theorems: experiment assignment -/

/-- **C1.**  `assign_variant_deterministic` is a pure function of the user id,
experiment name, variants and allocation: two calls with identical arguments
(under the same digest function) return the identical variant — there is no
hidden state, run-order dependence, or influence from other experiments'
allocations in the model, because the embedding is a function of exactly these
arguments. -/
theorem assign_variant_deterministic_pure (md5 : String → Nat)
    (u₁ u₂ : Int) (e₁ e₂ : String) (v₁ v₂ : List String) (a₁ a₂ : List ℚ)
    (hu : u₁ = u₂) (he : e₁ = e₂) (hv : v₁ = v₂) (ha : a₁ = a₂) :
    assign_variant_deterministic md5 u₁ e₁ v₁ a₁ =
      assign_variant_deterministic md5 u₂ e₂ v₂ a₂ := by
  rw [hu, he, hv, ha]

/-- Witness for C1 at concrete arguments. -/
theorem assign_variant_deterministic_pure_witness :
    (7 : Int) = 7 ∧
      assign_variant_deterministic md5Ex 7 "checkout_button_color"
          ["blue_button", "green_button"] [1/2, 1/2] =
        assign_variant_deterministic md5Ex 7 "checkout_button_color"
          ["blue_button", "green_button"] [1/2, 1/2] :=
  ⟨rfl, assign_variant_deterministic_pure md5Ex 7 7 "checkout_button_color"
    "checkout_button_color" ["blue_button", "green_button"] ["blue_button", "green_button"]
    [1/2, 1/2] [1/2, 1/2] rfl rfl rfl rfl⟩

/-- **C6.**  `assign_variant_deterministic` hashes the concatenation of the
entity id and the experiment name, reduces the digest modulo 1,000,000 to a
pseudo-uniform value in `[0,1)`, and returns the first variant whose cumulative
allocation share is greater than or equal to that value (first variant as
fallback), as `specAssignVariant` states the algorithm. -/
theorem assign_variant_matches_spec_algorithm (md5 : String → Nat) (user_id : Int)
    (experiment_name : String) (variants : List String) (allocation : List ℚ) :
    0 ≤ hashProbability md5 user_id experiment_name ∧
      hashProbability md5 user_id experiment_name < 1 ∧
      assign_variant_deterministic md5 user_id experiment_name variants allocation =
        specAssignVariant md5 user_id experiment_name variants allocation := by
  refine ⟨?_, ?_, ?_⟩
  · unfold hashProbability
    positivity
  · unfold hashProbability
    rw [div_lt_one (by norm_num)]
    exact_mod_cast Nat.mod_lt _ (by norm_num)
  · have hL : assign_variant_deterministic md5 user_id experiment_name variants allocation =
        match assignLoop (hashProbability md5 user_id experiment_name) 0
            (variants.zip allocation) with
        | some variant => variant
        | none => variants.headD "" := rfl
    have hR : specAssignVariant md5 user_id experiment_name variants allocation =
        match (variants.zip (cumulativeShares 0 allocation)).find?
            (fun vc => hashProbability md5 user_id experiment_name ≤ vc.2) with
        | some vc => vc.1
        | none => variants.headD "" := rfl
    rw [hL, hR, assignLoop_eq_find]
    cases h : (variants.zip (cumulativeShares 0 allocation)).find?
        (fun vc => hashProbability md5 user_id experiment_name ≤ vc.2) with
    | some vc => simp
    | none => simp

/-- **C9.**  For a nonempty variants list, `assign_variant_deterministic` is
total and always returns an element of the variants list: when the hashed
probability exceeds every cumulative share the `variants[0]` fallback is
returned, so nothing is raised even when the allocations sum below 1. -/
theorem assign_variant_mem_variants (md5 : String → Nat) (user_id : Int)
    (experiment_name : String) (variants : List String) (allocation : List ℚ)
    (hne : variants ≠ []) :
    assign_variant_deterministic md5 user_id experiment_name variants allocation ∈ variants := by
  have h0 : assign_variant_deterministic md5 user_id experiment_name variants allocation =
      match assignLoop (hashProbability md5 user_id experiment_name) 0
          (variants.zip allocation) with
      | some variant => variant
      | none => variants.headD "" := rfl
  rw [h0]
  cases h : assignLoop (hashProbability md5 user_id experiment_name) 0
      (variants.zip allocation) with
  | some v =>
    obtain ⟨a, ha⟩ := assignLoop_some _ _ _ _ h
    simpa using (List.of_mem_zip ha).1
  | none =>
    cases variants with
    | nil => exact absurd rfl hne
    | cons v vs => simp

/-- Witness for C9: even with an allocation vector summing to `1/4 < 1`, the
result is a member of the variants list. -/
theorem assign_variant_mem_variants_witness :
    (["blue_button", "green_button"] : List String) ≠ [] ∧
      assign_variant_deterministic md5Ex 7 "checkout_button_color"
          ["blue_button", "green_button"] [1/8, 1/8] ∈
        (["blue_button", "green_button"] : List String) :=
  ⟨by decide, assign_variant_mem_variants md5Ex 7 "checkout_button_color"
    ["blue_button", "green_button"] [1/8, 1/8] (by decide)⟩

/-! ## Helper lemmas: progress tracker -/

/-- The date-scanning loop is a filter over the visited range. -/
theorem remainingGo_eq_filter (p : Progress) :
    ∀ (fuel current : Nat),
      remainingGo p fuel current =
        (List.range' current fuel).filter (fun d => ! is_date_completed p d) := by
  intro fuel
  induction fuel with
  | zero => intro c; simp [remainingGo]
  | succ n ih =>
    intro c
    rw [show List.range' c (n + 1) = c :: List.range' (c + 1) n from rfl, List.filter_cons]
    cases h : is_date_completed p c <;> simp [remainingGo, h, ih]

/-- Membership in the remaining-date list. -/
theorem mem_get_remaining_dates (p : Progress) (s e x : Nat) :
    x ∈ get_remaining_dates p s e ↔ s ≤ x ∧ x ≤ e ∧ x ∉ p.completed_dates := by
  unfold get_remaining_dates
  rw [remainingGo_eq_filter]
  simp only [List.mem_filter, List.mem_range'_1, is_date_completed, List.contains,
    Bool.not_eq_true', List.elem_eq_mem, decide_eq_false_iff_not]
  constructor
  · rintro ⟨⟨h1, h2⟩, h3⟩
    exact ⟨h1, by omega, h3⟩
  · rintro ⟨h1, h2, h3⟩
    exact ⟨⟨h1, by omega⟩, h3⟩

/-- The remaining-date list is strictly ascending. -/
theorem get_remaining_dates_sorted (p : Progress) (s e : Nat) :
    (get_remaining_dates p s e).Pairwise (· < ·) := by
  unfold get_remaining_dates
  rw [remainingGo_eq_filter]
  exact (List.pairwise_lt_range' _ _).filter _

/-- `mark_date_completed` always leaves the target date in the completed set. -/
theorem mem_completed_mark_self (p : Progress) (d n : Nat) :
    d ∈ (mark_date_completed p d n).completed_dates := by
  by_cases h : d ∈ p.completed_dates <;> simp [mark_date_completed, h]

/-- The batching loop flushes every date into exactly one batch, provided the
sentinel is the value of the last remaining date. -/
theorem chunkGo_join (k lastV : Nat) :
    ∀ (rest current : List Nat), rest.getLast? = some lastV →
      ((chunkGo k lastV current rest).map (fun b => b.2.2)).flatten = current ++ rest := by
  intro rest
  induction rest with
  | nil => intro current h; simp at h
  | cons d tail ih =>
    intro current h
    cases tail with
    | nil =>
      simp only [List.getLast?_singleton, Option.some.injEq] at h
      subst h
      rw [show chunkGo k d current [d] =
          if (current ++ [d]).length = k ∨ d = d then
            ((current ++ [d]).headD 0, (current ++ [d]).getLastD 0, current ++ [d]) ::
              chunkGo k d [] []
          else chunkGo k d (current ++ [d]) [] from rfl]
      rw [if_pos (Or.inr rfl)]
      simp [chunkGo]
    | cons d' tail' =>
      have h' : (d' :: tail').getLast? = some lastV := by
        rw [← List.getLast?_cons_cons (a := d)]; exact h
      rw [show chunkGo k lastV current (d :: d' :: tail') =
          if (current ++ [d]).length = k ∨ d = lastV then
            ((current ++ [d]).headD 0, (current ++ [d]).getLastD 0, current ++ [d]) ::
              chunkGo k lastV [] (d' :: tail')
          else chunkGo k lastV (current ++ [d]) (d' :: tail') from rfl]
      split
      · simp [ih [] h']
      · rw [ih (current ++ [d]) h']
        simp

/-- No batch emitted by the loop exceeds `batch_days` dates, provided
`batch_days ≥ 1` and the current partial batch is still below the bound. -/
theorem chunkGo_batch_le (k lastV : Nat) (hk : 1 ≤ k) :
    ∀ (rest current : List Nat), current.length < k →
      ∀ b ∈ chunkGo k lastV current rest, b.2.2.length ≤ k := by
  intro rest
  induction rest with
  | nil => intro current _ b hb; simp [chunkGo] at hb
  | cons d tail ih =>
    intro current hcur b hb
    rw [show chunkGo k lastV current (d :: tail) =
        if (current ++ [d]).length = k ∨ d = lastV then
          ((current ++ [d]).headD 0, (current ++ [d]).getLastD 0, current ++ [d]) ::
            chunkGo k lastV [] tail
        else chunkGo k lastV (current ++ [d]) tail from rfl] at hb
    split at hb
    · rcases List.mem_cons.mp hb with rfl | hb'
      · simp only [List.length_append, List.length_singleton]
        omega
      · exact ih [] (by simpa using hk) b hb'
    · next hc =>
      have hne : (current ++ [d]).length ≠ k := fun hx => hc (Or.inl hx)
      have hlt : (current ++ [d]).length < k := by
        simp only [List.length_append, List.length_singleton] at hne ⊢
        omega
      exact ih (current ++ [d]) hlt b hb

/-! ## Claim theorems: progress tracker -/

/-- **C2.**  `get_remaining_dates(start, end)` returns exactly the dates of
`[start, end]` not in the completed set, in (strictly) ascending order; and
after `mark_date_completed(d, n)` for a date `d` of that result, `d` is no
longer returned and the cumulative record total has increased by exactly `n`. -/
theorem remaining_dates_correct (p : Progress) (s e d n : Nat)
    (_hd : d ∈ get_remaining_dates p s e) :
    (∀ x, x ∈ get_remaining_dates p s e ↔ s ≤ x ∧ x ≤ e ∧ x ∉ p.completed_dates) ∧
      (get_remaining_dates p s e).Pairwise (· < ·) ∧
      d ∉ get_remaining_dates (mark_date_completed p d n) s e ∧
      (mark_date_completed p d n).total_records_ingested = p.total_records_ingested + n := by
  refine ⟨fun x => mem_get_remaining_dates p s e x, get_remaining_dates_sorted p s e, ?_, rfl⟩
  intro hmem
  rw [mem_get_remaining_dates] at hmem
  exact hmem.2.2 (mem_completed_mark_self p d n)

/-- Witness for C2: with date 1 completed out of `[0,2]`, date 2 is remaining;
marking it completed with 7 records removes it and adds exactly 7. -/
theorem remaining_dates_correct_witness :
    2 ∈ get_remaining_dates pEx 0 2 ∧
      ((∀ x, x ∈ get_remaining_dates pEx 0 2 ↔ 0 ≤ x ∧ x ≤ 2 ∧ x ∉ pEx.completed_dates) ∧
        (get_remaining_dates pEx 0 2).Pairwise (· < ·) ∧
        2 ∉ get_remaining_dates (mark_date_completed pEx 2 7) 0 2 ∧
        (mark_date_completed pEx 2 7).total_records_ingested =
          pEx.total_records_ingested + 7) :=
  ⟨by decide, remaining_dates_correct pEx 0 2 2 7 (by decide)⟩

/-- **C3.**  For `batch_days = k ≥ 1`, the concatenation of the date lists of
all batches of `get_remaining_batches(start, end, k)` equals
`get_remaining_dates(start, end)` — no duplicates (the remaining list has no
duplicate) and no omissions — and no batch's date list is longer than `k`. -/
theorem remaining_batches_partition (p : Progress) (s e k : Nat) (hk : 1 ≤ k) :
    ((get_remaining_batches p s e k).map (fun b => b.2.2)).flatten = get_remaining_dates p s e ∧
      (∀ b ∈ get_remaining_batches p s e k, b.2.2.length ≤ k) ∧
      (get_remaining_dates p s e).Nodup := by
  have hnd : (get_remaining_dates p s e).Nodup :=
    (get_remaining_dates_sorted p s e).imp (fun h => Nat.ne_of_lt h)
  unfold get_remaining_batches
  cases hrem : (get_remaining_dates p s e).isEmpty
  · have hne : get_remaining_dates p s e ≠ [] := by
      intro h0
      rw [h0] at hrem
      simp at hrem
    obtain ⟨x, hx⟩ := Option.isSome_iff_exists.mp (List.getLast?_isSome.mpr hne)
    have hlastD : (get_remaining_dates p s e).getLastD 0 = x := by
      simp [List.getLastD_eq_getLast?, hx]
    simp only [hrem, Bool.false_eq_true, if_false, hlastD]
    exact ⟨by simpa using chunkGo_join k x (get_remaining_dates p s e) [] hx,
      chunkGo_batch_le k x hk (get_remaining_dates p s e) [] (by simpa using hk), hnd⟩
  · have h0 : get_remaining_dates p s e = [] := List.isEmpty_iff.mp hrem
    simp [hrem, h0]

/-- Witness for C3 at `k = 2` over `[0, 2]` with date 1 completed. -/
theorem remaining_batches_partition_witness :
    1 ≤ 2 ∧
      (((get_remaining_batches pEx 0 2 2).map (fun b => b.2.2)).flatten =
          get_remaining_dates pEx 0 2 ∧
        (∀ b ∈ get_remaining_batches pEx 0 2 2, b.2.2.length ≤ 2) ∧
        (get_remaining_dates pEx 0 2).Nodup) :=
  ⟨by decide, remaining_batches_partition pEx 0 2 2 (by decide)⟩

/-- **C5 counterexample.**  `mark_date_completed` is *not* idempotent on the
cumulative total: with date 5 already completed and total 0, marking 5 again
with 7 records raises the total to 7. -/
theorem mark_date_completed_not_idempotent :
    5 ∈ pDone.completed_dates ∧
      (mark_date_completed pDone 5 7).total_records_ingested ≠
        pDone.total_records_ingested := by
  decide

/-- **C5 (amended).**  When the date is already in the completed set,
`mark_date_completed(d, n)` leaves the completed set unchanged and removes `d`
from the failed set if present, but still increases the cumulative record
total by exactly `n` (the `+=` is unconditional). -/
theorem mark_date_completed_on_completed (p : Progress) (d n : Nat)
    (hd : d ∈ p.completed_dates) :
    (mark_date_completed p d n).completed_dates = p.completed_dates ∧
      (mark_date_completed p d n).failed_dates = p.failed_dates.erase d ∧
      (mark_date_completed p d n).total_records_ingested = p.total_records_ingested + n := by
  refine ⟨by simp [mark_date_completed, hd], ?_, rfl⟩
  by_cases hf : d ∈ p.failed_dates
  · simp [mark_date_completed, hf]
  · simp [mark_date_completed, hf, List.erase_of_not_mem hf]

/-- Witness for the amended C5. -/
theorem mark_date_completed_on_completed_witness :
    5 ∈ pDone.completed_dates ∧
      ((mark_date_completed pDone 5 7).completed_dates = pDone.completed_dates ∧
        (mark_date_completed pDone 5 7).failed_dates = pDone.failed_dates.erase 5 ∧
        (mark_date_completed pDone 5 7).total_records_ingested =
          pDone.total_records_ingested + 7) :=
  ⟨by decide, mark_date_completed_on_completed pDone 5 7 (by decide)⟩

/-- **C10 counterexample.**  Constructing the tracker *can* fail on a bad
progress file: the `except` clause catches only `json.JSONDecodeError` and
`IOError`, so a file whose bytes are not decodable (a `UnicodeDecodeError`,
which is neither caught class) propagates out of `_load_progress` instead of
falling back to the fresh state. -/
theorem load_progress_claim_counterexample :
    load_progress ProgressFile.uncaughtError = Except.error "UnicodeDecodeError" ∧
      load_progress ProgressFile.uncaughtError ≠ Except.ok freshProgress :=
  ⟨rfl, fun h => Except.noConfusion h⟩

/-- **C10 (amended).**  When the progress file is absent, or reading it raises
one of the two caught exception classes (`IOError`, `json.JSONDecodeError` —
i.e. unreadable or invalid JSON), `_load_progress` falls back to the fresh
empty state (empty completed and failed sets, cumulative total 0, null
timestamps), so such a file behaves exactly like a first run and any
previously persisted cumulative total is discarded; a valid file loads as-is;
but an exception outside the caught classes — e.g. `UnicodeDecodeError` from a
non-UTF-8 file — escapes, and construction fails. -/
theorem load_progress_fallback_caught :
    load_progress ProgressFile.absent = Except.ok freshProgress ∧
      load_progress ProgressFile.caughtError = Except.ok freshProgress ∧
      (∀ p : Progress, load_progress (ProgressFile.valid p) = Except.ok p) ∧
      load_progress ProgressFile.uncaughtError = Except.error "UnicodeDecodeError" ∧
      freshProgress.completed_dates = [] ∧
      freshProgress.failed_dates = [] ∧
      freshProgress.total_records_ingested = 0 ∧
      freshProgress.last_updated = none ∧
      freshProgress.ingestion_start_time = none :=
  ⟨rfl, rfl, fun _ => rfl, rfl, rfl, rfl, rfl, rfl, rfl⟩

/-! ## Helper lemmas: batch ingestion driver -/

theorem mark_date_failed_completed (p : Progress) (d : Nat) :
    (mark_date_failed p d).completed_dates = p.completed_dates := by
  unfold mark_date_failed
  split <;> rfl

theorem mark_date_failed_total (p : Progress) (d : Nat) :
    (mark_date_failed p d).total_records_ingested = p.total_records_ingested := by
  unfold mark_date_failed
  split <;> rfl

theorem mem_failed_mark_date_failed (p : Progress) (d x : Nat) :
    x ∈ (mark_date_failed p d).failed_dates ↔ x ∈ p.failed_dates ∨ x = d := by
  unfold mark_date_failed
  split
  · next h => exact ⟨Or.inl, by rintro (hx | rfl) <;> [exact hx; exact h]⟩
  · next h => simp

theorem markDatesFailed_completed :
    ∀ (dates : List Nat) (p : Progress),
      (markDatesFailed p dates).completed_dates = p.completed_dates := by
  intro dates
  induction dates with
  | nil => intro p; rfl
  | cons d ds ih =>
    intro p
    show (markDatesFailed (mark_date_failed p d) ds).completed_dates = _
    rw [ih, mark_date_failed_completed]

theorem markDatesFailed_total :
    ∀ (dates : List Nat) (p : Progress),
      (markDatesFailed p dates).total_records_ingested = p.total_records_ingested := by
  intro dates
  induction dates with
  | nil => intro p; rfl
  | cons d ds ih =>
    intro p
    show (markDatesFailed (mark_date_failed p d) ds).total_records_ingested = _
    rw [ih, mark_date_failed_total]

theorem mem_markDatesFailed :
    ∀ (dates : List Nat) (p : Progress) (x : Nat),
      x ∈ (markDatesFailed p dates).failed_dates ↔ x ∈ p.failed_dates ∨ x ∈ dates := by
  intro dates
  induction dates with
  | nil => intro p x; simp [markDatesFailed]
  | cons d ds ih =>
    intro p x
    show x ∈ (markDatesFailed (mark_date_failed p d) ds).failed_dates ↔ _
    rw [ih, mem_failed_mark_date_failed]
    simp only [List.mem_cons]
    tauto

theorem mem_completed_mark_date_completed_ne (p : Progress) (d n x : Nat) (hx : x ≠ d) :
    x ∈ (mark_date_completed p d n).completed_dates ↔ x ∈ p.completed_dates := by
  unfold mark_date_completed
  by_cases h : d ∈ p.completed_dates <;> simp [h, hx]

theorem mem_failed_mark_date_completed_ne (p : Progress) (d n x : Nat) (hx : x ≠ d) :
    x ∈ (mark_date_completed p d n).failed_dates ↔ x ∈ p.failed_dates := by
  unfold mark_date_completed
  by_cases h : d ∈ p.failed_dates <;> simp [h, List.mem_erase_of_ne hx]

theorem markDatesCompleted_outside :
    ∀ (dates : List Nat) (p : Progress) (n x : Nat), x ∉ dates →
      ((x ∈ (markDatesCompleted p dates n).completed_dates ↔ x ∈ p.completed_dates) ∧
        (x ∈ (markDatesCompleted p dates n).failed_dates ↔ x ∈ p.failed_dates)) := by
  intro dates
  induction dates with
  | nil => intro p n x _; exact ⟨Iff.rfl, Iff.rfl⟩
  | cons d ds ih =>
    intro p n x hx
    have hxd : x ≠ d := fun hh => hx (hh ▸ List.mem_cons_self d ds)
    have hxds : x ∉ ds := fun hh => hx (List.mem_cons_of_mem d hh)
    obtain ⟨h1, h2⟩ := ih (mark_date_completed p d n) n x hxds
    exact ⟨h1.trans (mem_completed_mark_date_completed_ne p d n x hxd),
      h2.trans (mem_failed_mark_date_completed_ne p d n x hxd)⟩

theorem runBatchesGo_count :
    ∀ (items : List (List Nat × BatchOutcome)) (p : Progress),
      (runBatchesGo p items).2.successful_batches +
          (runBatchesGo p items).2.failed_batches = items.length := by
  intro items
  induction items with
  | nil => intro p; rfl
  | cons it rest ih =>
    intro p
    obtain ⟨dates, oc⟩ := it
    cases hstep : (ingest_multi_day_batch p dates oc).2 with
    | none =>
      have := ih (ingest_multi_day_batch p dates oc).1
      simp [runBatchesGo, hstep]
      omega
    | some records =>
      have := ih (ingest_multi_day_batch p dates oc).1
      simp [runBatchesGo, hstep]
      omega

/-! ## Claim theorems: batch ingestion driver -/

/-- **C4 counterexample.**  A BigQuery load failure (`loadError`) raises out of
`ingest_multi_day_batch`, yet no date of the batch is marked failed — the local
`successful_dates` already holds the whole batch — so date 0, which was not
already completed, ends up neither completed nor failed, contradicting the
claim that every not-yet-completed date of a failing batch is marked failed. -/
theorem batch_failure_claim_counterexample :
    (ingest_multi_day_batch freshProgress [0, 1] BatchOutcome.loadError).2 = none ∧
      0 ∉ freshProgress.completed_dates ∧
      (ingest_multi_day_batch freshProgress [0, 1] BatchOutcome.loadError).1.failed_dates
        = [] := by
  decide

/-- **C4 (amended).**  When a batch fails before its records are collected
(API error, empty response, early-validation or transform error), every date of
the batch is marked failed and neither the completed set nor the record total
changes; when the load step fails after collection (`loadError`), the progress
state is left entirely unchanged, so the batch's dates stay pending.  In every
failure case the call re-raises (`none`), dates outside the batch keep their
completed/failed status, and the multi-batch loop still processes every batch
(a single failure is never fatal to the run). -/
theorem batch_failure_handling (p : Progress) (dates : List Nat) (oc : BatchOutcome)
    (hfail : oc.isFailure = true) :
    (ingest_multi_day_batch p dates oc).2 = none ∧
      (oc = BatchOutcome.loadError → (ingest_multi_day_batch p dates oc).1 = p) ∧
      (oc ≠ BatchOutcome.loadError →
        (∀ d ∈ dates, d ∈ (ingest_multi_day_batch p dates oc).1.failed_dates) ∧
          (ingest_multi_day_batch p dates oc).1.completed_dates = p.completed_dates ∧
          (ingest_multi_day_batch p dates oc).1.total_records_ingested =
            p.total_records_ingested) ∧
      (∀ x, x ∉ dates →
        ((x ∈ (ingest_multi_day_batch p dates oc).1.completed_dates ↔
            x ∈ p.completed_dates) ∧
          (x ∈ (ingest_multi_day_batch p dates oc).1.failed_dates ↔
            x ∈ p.failed_dates))) ∧
      (∀ items : List (List Nat × BatchOutcome),
        (runBatchesGo p items).2.successful_batches +
            (runBatchesGo p items).2.failed_batches = items.length) := by
  cases oc
  case success records => simp [BatchOutcome.isFailure] at hfail
  case loadError =>
    exact ⟨rfl, fun _ => rfl, fun h => absurd rfl h, fun x _ => ⟨Iff.rfl, Iff.rfl⟩,
      fun items => runBatchesGo_count items p⟩
  all_goals
    exact ⟨rfl, fun h => BatchOutcome.noConfusion h,
      fun _ => ⟨fun d hd => (mem_markDatesFailed dates p d).mpr (Or.inr hd),
        markDatesFailed_completed dates p, markDatesFailed_total dates p⟩,
      fun x hx =>
        ⟨by
          show x ∈ (markDatesFailed p dates).completed_dates ↔ x ∈ p.completed_dates
          rw [markDatesFailed_completed],
         by
          show x ∈ (markDatesFailed p dates).failed_dates ↔ x ∈ p.failed_dates
          rw [mem_markDatesFailed]
          simp [hx]⟩,
      fun items => runBatchesGo_count items p⟩

/-- Witness for the amended C4 at an API error on the one-date batch `[3]`. -/
theorem batch_failure_handling_witness :
    BatchOutcome.apiError.isFailure = true ∧
      ((ingest_multi_day_batch freshProgress [3] BatchOutcome.apiError).2 = none ∧
        (BatchOutcome.apiError = BatchOutcome.loadError →
          (ingest_multi_day_batch freshProgress [3] BatchOutcome.apiError).1 =
            freshProgress) ∧
        (BatchOutcome.apiError ≠ BatchOutcome.loadError →
          (∀ d ∈ [3],
              d ∈ (ingest_multi_day_batch freshProgress [3]
                    BatchOutcome.apiError).1.failed_dates) ∧
            (ingest_multi_day_batch freshProgress [3]
                BatchOutcome.apiError).1.completed_dates =
              freshProgress.completed_dates ∧
            (ingest_multi_day_batch freshProgress [3]
                BatchOutcome.apiError).1.total_records_ingested =
              freshProgress.total_records_ingested) ∧
        (∀ x, x ∉ [3] →
          ((x ∈ (ingest_multi_day_batch freshProgress [3]
                  BatchOutcome.apiError).1.completed_dates ↔
              x ∈ freshProgress.completed_dates) ∧
            (x ∈ (ingest_multi_day_batch freshProgress [3]
                    BatchOutcome.apiError).1.failed_dates ↔
              x ∈ freshProgress.failed_dates))) ∧
        (∀ items : List (List Nat × BatchOutcome),
          (runBatchesGo freshProgress items).2.successful_batches +
              (runBatchesGo freshProgress items).2.failed_batches = items.length)) :=
  ⟨by decide, batch_failure_handling freshProgress [3] BatchOutcome.apiError (by decide)⟩

/-- `_run_batch_ingestion` alone short-circuits on an empty batch list with
the "nothing to do" summary and no calls of its own. -/
theorem run_batch_ingestion_empty (p : Progress) (start_date end_date batch_days : Nat)
    (oracle : List Nat → BatchOutcome)
    (h : get_remaining_batches p start_date end_date batch_days = []) :
    run_batch_ingestion p start_date end_date batch_days oracle =
      { status := "completed"
        message := some "All batches already completed"
        total_records := p.total_records_ingested
        overall_progress := p.total_records_ingested
        successful_batches := 0
        failed_batches := 0
        apiCalls := 0
        bqCalls := 0
        final := p } := by
  unfold run_batch_ingestion
  simp [h]

theorem start_ingestion_completed (p : Progress) (now : Nat) :
    (start_ingestion p now).completed_dates = p.completed_dates := by
  unfold start_ingestion
  cases p.ingestion_start_time <;> rfl

theorem start_ingestion_total (p : Progress) (now : Nat) :
    (start_ingestion p now).total_records_ingested = p.total_records_ingested := by
  unfold start_ingestion
  cases p.ingestion_start_time <;> rfl

theorem is_date_completed_start_ingestion (p : Progress) (now d : Nat) :
    is_date_completed (start_ingestion p now) d = is_date_completed p d := by
  unfold is_date_completed
  rw [start_ingestion_completed]

theorem get_remaining_dates_start_ingestion (p : Progress) (now s e : Nat) :
    get_remaining_dates (start_ingestion p now) s e = get_remaining_dates p s e := by
  unfold get_remaining_dates
  rw [remainingGo_eq_filter, remainingGo_eq_filter]
  simp only [is_date_completed_start_ingestion]

theorem get_remaining_batches_start_ingestion (p : Progress) (now s e k : Nat) :
    get_remaining_batches (start_ingestion p now) s e k =
      get_remaining_batches p s e k := by
  unfold get_remaining_batches
  rw [get_remaining_dates_start_ingestion]

/-- **C7 counterexample.**  Even when `get_remaining_batches` is empty,
`run_historical_ingestion` issues a warehouse call: line 447 unconditionally
runs `setup_bigquery_table`, whose `bq_client.get_table` request precedes the
empty-batch check, so the warehouse-call count is not zero. -/
theorem run_short_circuit_claim_counterexample :
    get_remaining_batches pAllDone 0 2 1 = [] ∧
      (run_historical_ingestion pAllDone 99 0 2 1
          (fun _ => BatchOutcome.apiError)).bqCalls ≠ 0 := by
  decide

/-- **C7 (amended).**  When `get_remaining_batches` over the configured range
is empty, `run_historical_ingestion` (batch path) returns the "nothing to do"
summary reporting the persisted cumulative total, issues no API fetch and no
warehouse call beyond the single unconditional table-existence check of
`setup_bigquery_table` (in particular no load job and no data query), and the
only progress change is `start_ingestion` recording a start time if unset. -/
theorem run_historical_short_circuit (p : Progress) (now : Nat)
    (start_date end_date batch_days : Nat) (oracle : List Nat → BatchOutcome)
    (h : get_remaining_batches p start_date end_date batch_days = []) :
    run_historical_ingestion p now start_date end_date batch_days oracle =
      { status := "completed"
        message := some "All batches already completed"
        total_records := p.total_records_ingested
        overall_progress := p.total_records_ingested
        successful_batches := 0
        failed_batches := 0
        apiCalls := 0
        bqCalls := setupBigqueryTableCalls
        final := start_ingestion p now } := by
  have hrb : get_remaining_batches (start_ingestion p now) start_date end_date batch_days
      = [] := by
    rw [get_remaining_batches_start_ingestion]
    exact h
  unfold run_historical_ingestion
  simp only [run_batch_ingestion_empty (start_ingestion p now) start_date end_date
    batch_days oracle hrb, start_ingestion_total, Nat.zero_add]

/-- Witness for the amended C7: all of `[0,2]` completed, so nothing remains
and only the setup's table check is issued. -/
theorem run_historical_short_circuit_witness :
    get_remaining_batches pAllDone 0 2 1 = [] ∧
      run_historical_ingestion pAllDone 99 0 2 1 (fun _ => BatchOutcome.apiError) =
        { status := "completed"
          message := some "All batches already completed"
          total_records := pAllDone.total_records_ingested
          overall_progress := pAllDone.total_records_ingested
          successful_batches := 0
          failed_batches := 0
          apiCalls := 0
          bqCalls := setupBigqueryTableCalls
          final := start_ingestion pAllDone 99 } :=
  ⟨by decide,
    run_historical_short_circuit pAllDone 99 0 2 1 (fun _ => BatchOutcome.apiError)
      (by decide)⟩

/-! ## Claim theorems: API client validation -/

/-- **C8.**  `get_bnpl_data` fails with a validation error before any HTTP
request is issued — hence with no retry — whenever the end date precedes the
start date, the start year is before 2020, the end year exceeds the current
year plus one, or `base_daily_volume` lies outside `[1, 50000]`. -/
theorem get_bnpl_data_validation (today_year : Nat) (start_date end_date : PDate)
    (base_daily_volume : Int) (http : PDate → PDate → Int → Except String (List Nat))
    (h : pdate_before end_date start_date ∨ start_date.year < 2020 ∨
        today_year + 1 < end_date.year ∨ base_daily_volume ≤ 0 ∨
        50000 < base_daily_volume) :
    (∃ msg, (get_bnpl_data today_year start_date end_date base_daily_volume http).1 =
        Except.error msg) ∧
      (get_bnpl_data today_year start_date end_date base_daily_volume http).2 = 0 := by
  by_cases h1 : pdate_before end_date start_date
  · unfold get_bnpl_data validate_date_range
    rw [if_pos h1]
    exact ⟨⟨_, rfl⟩, rfl⟩
  · by_cases h2 : start_date.year < 2020 ∨ today_year + 1 < end_date.year
    · unfold get_bnpl_data validate_date_range
      rw [if_neg h1, if_pos h2]
      exact ⟨⟨_, rfl⟩, rfl⟩
    · have h3 : base_daily_volume ≤ 0 ∨ 50000 < base_daily_volume := by tauto
      unfold get_bnpl_data validate_date_range
      rw [if_neg h1, if_neg h2]
      rw [if_pos h3]
      exact ⟨⟨_, rfl⟩, rfl⟩

/-- Witness for C8: 2024-04-30 precedes 2024-05-01, so the call errors with
zero HTTP requests. -/
theorem get_bnpl_data_validation_witness :
    (pdate_before ⟨2024, 4, 30⟩ ⟨2024, 5, 1⟩ ∨ (⟨2024, 5, 1⟩ : PDate).year < 2020 ∨
        2025 + 1 < (⟨2024, 4, 30⟩ : PDate).year ∨ (5000 : Int) ≤ 0 ∨
        (50000 : Int) < 5000) ∧
      ((∃ msg,
          (get_bnpl_data 2025 ⟨2024, 5, 1⟩ ⟨2024, 4, 30⟩ 5000
              (fun _ _ _ => Except.ok [])).1 = Except.error msg) ∧
        (get_bnpl_data 2025 ⟨2024, 5, 1⟩ ⟨2024, 4, 30⟩ 5000
            (fun _ _ _ => Except.ok [])).2 = 0) :=
  ⟨by decide,
    get_bnpl_data_validation 2025 ⟨2024, 5, 1⟩ ⟨2024, 4, 30⟩ 5000
      (fun _ _ _ => Except.ok []) (by decide)⟩

end Flit
